import Mathlib

/-!
Verification development for `structhole.c`, a tool that reconstructs the
member layout of a named aggregate from a binary's DWARF debug information.

The development shallowly embeds the program's core:

* `get_uleb128` / `get_uleb128_stream` — the base-128 variable-length
  integer decoder (lines 113-130 of the source), once over a finite byte
  list and once over an unbounded byte stream with explicit fuel (the C
  loop has no bound of its own).
* `get_member_offset`, `get_member_size`, `structprobe` and its helpers —
  the layout walker (lines 132-331).
* `runMain` — the `main` lookup loop, ELF-class probing and session
  teardown (lines 333-429), over an abstract world describing the
  provider's answers.

Machine integers are modelled as `Nat` with explicit reduction modulo
`2 ^ 64` (`Dwarf_Word`, `size_t`) or `2 ^ 32` (`unsigned`) at every
operation where C wraparound or truncation is observable.  Rendered text
is modelled as `List Char`; `snprintf` into a buffer of `n` bytes is
`List.take (n - 1)`.  Uninitialized stack memory is modelled by an
arbitrary value threaded through the configuration (`Config.uninit`).
DWARF trees are given as inductive data, so provider traversal itself
cannot fail; the fatal paths that depend only on the shape of the data
(missing attributes, unsupported forms, empty aggregates) are all
represented.
-/

/-- Width of `Dwarf_Word` and `size_t` (64-bit). -/
def W64 : Nat := 2 ^ 64

/-- Width of C `unsigned` (32-bit). -/
def U32 : Nat := 2 ^ 32

def DW_TAG_class_type : Nat := 0x02
def DW_TAG_enumeration_type : Nat := 0x04
def DW_TAG_member : Nat := 0x0d
def DW_TAG_pointer_type : Nat := 0x0f
def DW_TAG_structure_type : Nat := 0x13
def DW_TAG_base_type : Nat := 0x24
def DW_TAG_interface_type : Nat := 0x38

def DW_OP_constu : Nat := 0x10
def DW_OP_plus_uconst : Nat := 0x23

/-- From `sysexits.h`. -/
def EX_OK : Nat := 0

def EX_USAGE : Nat := 64

def EX_DATAERR : Nat := 65

def EX_SOFTWARE : Nat := 70

/-- Conventional exit status of a process killed by `SIGABRT` (assert/UB). -/
def ABORT_STATUS : Nat := 134

/-- From `elf.h`: `EI_CLASS` values. -/
def ELFCLASS32 : Nat := 1

def ELFCLASS64 : Nat := 2

/-- The elfutils error value exposed by the source (`DWARF_E_NO_REGFILE`). -/
def DWARF_E_NO_REGFILE : Nat := 3

/-- Loop body of `get_uleb128` (source lines 113-130) over a finite byte
list.  Each input byte is an `unsigned char` (hence the `% 256` at the
load); its low 7 bits are OR-ed into the 64-bit accumulator at the
current shift, and a clear bit 7 terminates the loop.  `none` models the
C code running off the end of the supplied bytes (an out-of-bounds
read). -/
def uleb_go : List Nat → Nat → Nat → Option Nat
  | [], _, _ => none
  | d :: rest, out, shift =>
    let b := d % 256
    let out' := (out ||| ((b &&& 0x7f) <<< shift)) % W64
    if b &&& 0x80 == 0 then some out' else uleb_go rest out' (shift + 7)

/-- `get_uleb128` of the source, on a finite byte list. -/
def get_uleb128 (dat : List Nat) : Option Nat :=
  uleb_go dat 0 0

/-- The same decoder loop over an unbounded byte stream, with explicit
fuel: the C loop advances `dat` without any bound, so termination is a
property of the stream, not of the code.  Returns the decoded value and
the index one past the last byte consumed. -/
def get_uleb128_stream : Nat → (Nat → Nat) → Nat → Nat → Nat → Option (Nat × Nat)
  | 0, _, _, _, _ => none
  | fuel + 1, dat, i, out, shift =>
    let b := dat i % 256
    let out' := (out ||| ((b &&& 0x7f) <<< shift)) % W64
    if b &&& 0x80 == 0 then some (out', i + 1)
    else get_uleb128_stream fuel dat (i + 1) out' (shift + 7)

/-- Modelled from the spec: the textbook base-128 variable-length
encoding of an unsigned integer — low 7 bits per byte, least-significant
group first, bit `0x80` set on every byte except the last. -/
def uleb_encode (v : Nat) : List Nat :=
  if h : v < 128 then [v]
  else (v % 128 + 128) :: uleb_encode (v / 128)
termination_by v
decreasing_by exact Nat.div_lt_self (by omega) (by omega)

/-- `isstruct` of the source (lines 103-111). -/
def isstruct (dwtag : Nat) : Bool :=
  dwtag == DW_TAG_structure_type || dwtag == DW_TAG_class_type ||
    dwtag == DW_TAG_interface_type

/-- The `DW_AT_data_member_location` attribute of a member DIE as the
provider reports it: absent, a block form with its payload bytes, or any
other form (the `ZZZ!` path of `get_member_offset`). -/
inductive LocAttr where
  | missing : LocAttr
  | block : List Nat → LocAttr
  | otherForm : LocAttr
deriving DecidableEq, Repr

/-- A DIE reachable through `DW_AT_type` references.  The constructor
records whether the DIE itself has a `DW_AT_type` attribute
(`dwarf_hasattr(die, DW_AT_TYPE)`): `noRef` has none, `withRef` resolves
to the given referent. -/
inductive TypeDie where
  | noRef : Nat → Option (List Char) → Option Nat → TypeDie
  | withRef : Nat → Option (List Char) → Option Nat → TypeDie → TypeDie
deriving DecidableEq, Repr

/-- `dwarf_tag` of a type DIE. -/
def TypeDie.tag : TypeDie → Nat
  | .noRef t _ _ => t
  | .withRef t _ _ _ => t

/-- `dwarf_diename` of a type DIE (`none` models a NULL name). -/
def TypeDie.name : TypeDie → Option (List Char)
  | .noRef _ n _ => n
  | .withRef _ n _ _ => n

/-- `dwarf_aggregate_size` of a type DIE: `none` models the call
returning `-1`. -/
def TypeDie.aggSize : TypeDie → Option Nat
  | .noRef _ _ a => a
  | .withRef _ _ a _ => a

/-- One sibling DIE inside the aggregate, as `structprobe` walks it. -/
structure MemberDie where
  tag : Nat
  name : Option (List Char)
  loc : LocAttr
  typeRef : Option TypeDie
deriving DecidableEq, Repr

/-- A top-level DIE in a compilation unit, as `main` walks it. -/
structure StructDie where
  tag : Nat
  name : Option (List Char)
  aggSize : Option Nat
  children : List MemberDie
deriving DecidableEq, Repr

/-- Everything `structprobe` prints, as an event trace. -/
inductive Event where
  | header : List Char → Event
  | ignoredQual : Nat → Event
  | hole : Nat → Event
  | memberLine : List Char → List Char → Nat → Nat → Event
  | boundaryAgo : Nat → Nat → Nat → Event
  | boundaryExact : Nat → Nat → Event
  | summary : Nat → Nat → Nat → Nat → Nat → Nat → Nat → Event
  | closing : Event
deriving DecidableEq, Repr

/-- Every way the walker terminates the process early.  `dwarfErr`
carries the `sysexits` status passed to `_dwarf_err`; `noChildren` is
the `XXX ???`/`exit(EX_DATAERR)` path; `assertFail` is the active
`assert` in `get_member_offset`; `oobRead` marks reads past the
location block, which are undefined behaviour in the C. -/
inductive Fatal where
  | dwarfErr : Nat → Fatal
  | noChildren : Fatal
  | assertFail : Fatal
  | oobRead : Fatal
deriving DecidableEq, Repr

/-- Process exit status of each fatal path. -/
def Fatal.exitCode : Fatal → Nat
  | .dwarfErr ex => ex
  | .noChildren => EX_DATAERR
  | .assertFail => ABORT_STATUS
  | .oobRead => ABORT_STATUS

/-- The process-wide values the walk reads: `cachelinesize` (the source
fixes it at 64), `pointer_size` (4 or 8 from the ELF class), and the
value an uninitialized `Dwarf_Word` local happens to hold. -/
structure Config where
  cachelinesize : Nat
  pointer_size : Nat
  uninit : Nat
deriving DecidableEq, Repr

def defaultCfg : Config := ⟨64, 8, 0⟩

/-- The locals of `structprobe` that persist across loop iterations:
`lastoff` (`Dwarf_Word`), `cline`, `members`, `nholes` (`unsigned`),
`memsz`, `holesz` (`size_t`). -/
structure WalkState where
  lastoff : Nat
  cline : Nat
  members : Nat
  nholes : Nat
  memsz : Nat
  holesz : Nat
deriving DecidableEq, Repr

def initState : WalkState := ⟨0, 0, 0, 0, 0, 0⟩

/-- `get_member_offset` (source lines 132-159).  Block forms must start
with `DW_OP_plus_uconst` or `DW_OP_constu` (asserted), followed by a
ULEB128 operand.  Any other form prints `ZZZ!` and returns `-1`, upon
which the caller exits through `dwarf_err`; both are fatal here. -/
def get_member_offset (m : MemberDie) : Except Fatal Nat :=
  match m.loc with
  | .missing => .error (.dwarfErr EX_DATAERR)
  | .otherForm => .error (.dwarfErr EX_DATAERR)
  | .block [] => .error .oobRead
  | .block (op :: rest) =>
    if op == DW_OP_plus_uconst || op == DW_OP_constu then
      match get_uleb128 rest with
      | some v => .ok v
      | none => .error .oobRead
    else .error .assertFail

/-- `get_member_size` (source lines 161-172), translated exactly: when
`dwarf_aggregate_size` succeeds the size is stored and `0` returned;
otherwise, for a pointer type, the function returns `pointer_size` as
its **return value** without writing to `*msize_out`, so the returned
size is whatever `msize` already held; any other failure is fatal.  The
pair is (return value, resulting `msize`). -/
def get_member_size (psz : Nat) (type_die : TypeDie) (msize : Nat) :
    Except Fatal (Int × Nat) :=
  match type_die.aggSize with
  | some s => .ok (0, s % W64)
  | none =>
    if type_die.tag == DW_TAG_pointer_type then .ok ((psz : Int), msize)
    else .error (.dwarfErr EX_DATAERR)

/-- One iteration of the pointer-chasing loop body (source lines
252-261): count pointer tags, remember struct/enum prefixes, and print
a diagnostic for any other qualifier tag. -/
def chaseStep (t lvl : Nat) (tg : List Char) : Nat × List Char × List Event :=
  if t == DW_TAG_pointer_type then (lvl + 1, tg, [])
  else if isstruct t then (lvl, "struct ".toList, [])
  else if t == DW_TAG_enumeration_type then (lvl, "enum ".toList, [])
  else (lvl, tg, [Event.ignoredQual t])

/-- The pointer-chasing loop of `structprobe` (source lines 252-275):
process the current DIE, stop if it has no `DW_AT_type` (untyped
pointers such as `void *`), otherwise advance to the referent and stop
as soon as it is a base type.  Returns the terminal DIE, the indirection
count, the tag prefix and the diagnostics printed along the way. -/
def chase : TypeDie → Nat → List Char → TypeDie × Nat × List Char × List Event
  | .noRef t n a, lvl, tg =>
    let s := chaseStep t lvl tg
    (.noRef t n a, s.1, s.2.1, s.2.2)
  | .withRef t _ _ r, lvl, tg =>
    let s := chaseStep t lvl tg
    if r.tag == DW_TAG_base_type then (r, s.1, s.2.1, s.2.2)
    else
      let rest := chase r s.1 s.2.1
      (rest.1, rest.2.1, rest.2.2.1, s.2.2 ++ rest.2.2.2)

/-- The pointer-suffix rendering (source lines 278-283): the level is
capped at `sizeof(ptr_suffix) - 2 = 30`, then the buffer holds a space
followed by that many stars. -/
def ptr_suffix (type_ptrlevel : Nat) : List Char :=
  let lvl := if type_ptrlevel > 30 then 30 else type_ptrlevel
  ' ' :: List.replicate lvl '*'

/-- The type-name formatting of `structprobe` (source lines 242-291):
pick prefix and identifier by tag, chase pointers, substitute
`<anonymous>` for a missing name, and `snprintf` everything into a
128-byte buffer (hence `take 127`). -/
def formatType (type_die : TypeDie) : List Char × List Event :=
  let r :=
    if isstruct type_die.tag then
      (("struct ".toList, type_die.name, ([] : List Char)), ([] : List Event))
    else if type_die.tag == DW_TAG_enumeration_type then
      (("enum ".toList, type_die.name, ([] : List Char)), ([] : List Event))
    else if type_die.tag == DW_TAG_pointer_type then
      let c := chase type_die 0 []
      ((c.2.2.1, c.1.name, ptr_suffix c.2.1), c.2.2.2)
    else ((([] : List Char), type_die.name, ([] : List Char)), ([] : List Event))
  let ty := r.1.2.1.getD "<anonymous>".toList
  ((r.1.1 ++ ty ++ r.1.2.2).take 127, r.2)

/-- The body of `structprobe`'s member loop (source lines 212-320) for a
single sibling DIE: skip non-members, resolve the type, decode the
offset, obtain the size, format the names, record a hole when the
offset differs from `lastoff`, emit the member line, accumulate, and
emit a cache-line-boundary annotation when the line index grew. -/
def probeMember (cfg : Config) (st : WalkState) (m : MemberDie) :
    Except Fatal (WalkState × List Event) :=
  if m.tag != DW_TAG_member then .ok (st, []) else
  let st1 : WalkState := { st with members := (st.members + 1) % U32 }
  match m.typeRef with
  | none => .error (.dwarfErr EX_DATAERR)
  | some type_die =>
    match get_member_offset m with
    | .error f => .error f
    | .ok off =>
      match get_member_size cfg.pointer_size type_die cfg.uninit with
      | .error f => .error f
      | .ok (ret, msize) =>
        if ret == -1 then .error (.dwarfErr EX_DATAERR) else
        let fmt := formatType type_die
        let holePart : List Event × WalkState :=
          if off != st1.lastoff then
            let diff := (off + (W64 - st1.lastoff % W64)) % W64
            ([Event.hole diff],
              { st1 with nholes := (st1.nholes + 1) % U32,
                         holesz := (st1.holesz + diff) % W64 })
          else ([], st1)
        let mem_name := ((m.name.getD "(null)".toList) ++ [';']).take 127
        let st3 : WalkState :=
          { holePart.2 with memsz := (holePart.2.memsz + msize) % W64,
                            lastoff := (off + msize) % W64 }
        let clPart : List Event × WalkState :=
          if st3.lastoff / cfg.cachelinesize > st3.cline then
            let ago := st3.lastoff % cfg.cachelinesize
            let cl := (st3.lastoff / cfg.cachelinesize) % U32
            ((if ago != 0 then [Event.boundaryAgo cl (cl * cfg.cachelinesize) ago]
              else [Event.boundaryExact cl (cl * cfg.cachelinesize)]),
              { st3 with cline := cl })
          else ([], st3)
        .ok (clPart.2,
          fmt.2 ++ holePart.1 ++ [Event.memberLine fmt.1 mem_name off msize] ++ clPart.1)

/-- The sibling iteration of `structprobe` (the `do`/`while
(dwarf_siblingof...)` loop), over the aggregate's child list. -/
def walkMembers (cfg : Config) : WalkState → List MemberDie →
    Except Fatal (WalkState × List Event)
  | st, [] => .ok (st, [])
  | st, d :: ds =>
    match probeMember cfg st d with
    | .error f => .error f
    | .ok r =>
      match walkMembers cfg r.1 ds with
      | .error f => .error f
      | .ok r' => .ok (r'.1, r.2 ++ r'.2)

/-- `structprobe` (source lines 188-331): header, aggregate size check,
first-child check, member walk, summary.  On the fatal paths the process
dies mid-print; the trace of a killed run is not modelled. -/
def structprobe (cfg : Config) (structdie : StructDie) : Except Fatal (List Event) :=
  match structdie.aggSize with
  | none => .error (.dwarfErr EX_DATAERR)
  | some structsize =>
    match structdie.children with
    | [] => .error .noChildren
    | m :: ms =>
      match walkMembers cfg initState (m :: ms) with
      | .error f => .error f
      | .ok r =>
        .ok (Event.header (structdie.name.getD "(null)".toList) :: r.2 ++
          [Event.summary (structsize % W64) ((r.1.cline + 1) % U32) r.1.members
            r.1.memsz r.1.nholes r.1.holesz (r.1.lastoff % cfg.cachelinesize),
           Event.closing])

/-- The per-DIE guard of `main`'s lookup loop (source lines 411-414):
a struct/class/interface tag, a nonempty child list
(`dwarf_haschildren`), and a non-NULL name equal to the queried type
name. -/
def matchesQuery (q : List Char) (d : StructDie) : Bool :=
  isstruct d.tag && !d.children.isEmpty &&
    (match d.name with
     | some n => n == q
     | none => false)

/-- `main`'s sibling walk over one compilation unit's top-level DIEs:
the first DIE passing the guard wins. -/
def findIn (q : List Char) (dies : List StructDie) : Option StructDie :=
  dies.find? (matchesQuery q)

/-- `main`'s `dwarf_nextcu` loop: the first compilation unit containing
a matching DIE wins; empty lists model CUs skipped by the two
`continue`s (failed `dwarf_offdie`, childless CU). -/
def findMatchIn : List (List StructDie) → List Char → Option StructDie
  | [], _ => none
  | cu :: rest, q =>
    match findIn q cu with
    | some d => some d
    | none => findMatchIn rest q

/-- Everything outside `main` that determines a run: whether `open(2)`
succeeds, whether `dwarf_begin` fails (and with which `dwarf_errno`),
the `EI_CLASS` byte of the ELF ident, whether `dwarf_end` reports a
teardown failure, the uninitialized-stack value, and the per-CU
top-level DIEs. -/
structure World where
  openOk : Bool
  beginErr : Option Nat
  elfClass : Nat
  endFails : Bool
  uninit : Nat
  cus : List (List StructDie)
deriving DecidableEq, Repr

/-- Observable outcome of one run of `main`: the process exit status,
how many times `dwarf_end` was called on the session, and the struct
declaration printed (empty when `structprobe` never ran). -/
structure RunResult where
  exitCode : Nat
  dwarfEnds : Nat
  output : List Event
deriving DecidableEq, Repr

/-- Whether the debug-info session was successfully acquired
(`open(2)` and `dwarf_begin` both succeeded). -/
def sessionOpened (w : World) : Bool :=
  w.openOk && w.beginErr.isNone

/-- The search-and-probe phase of `main` once the session is open and
the addressing width known, ending at `out:`: probe the first matching
DIE if any, then `dwarf_end` exactly once (its own failure exits with
`EX_SOFTWARE`); a fatal probe exits without reaching `out:`. -/
def runMainBody (w : World) (q : List Char) (psz : Nat) : RunResult :=
  match findMatchIn w.cus q with
  | none =>
    if w.endFails then ⟨EX_SOFTWARE, 1, []⟩ else ⟨EX_OK, 1, []⟩
  | some d =>
    match structprobe ⟨64, psz, w.uninit⟩ d with
    | .error f => ⟨f.exitCode, 0, []⟩
    | .ok evs =>
      if w.endFails then ⟨EX_SOFTWARE, 1, evs⟩ else ⟨EX_OK, 1, evs⟩

/-- `main` after argument parsing (source lines 375-429): open the
binary, begin the DWARF session, classify the addressing width from
`EI_CLASS`, search every CU for the named aggregate, probe it on a hit,
and fall through to `out:` where `dwarf_end` runs.  Every `_dwarf_err`,
`errx` and `exit` path terminates without reaching `out:`. -/
def runMain (w : World) (q : List Char) : RunResult :=
  if !w.openOk then ⟨EX_USAGE, 0, []⟩
  else
    match w.beginErr with
    | some e =>
      if e == DWARF_E_NO_REGFILE then ⟨EX_USAGE, 0, []⟩
      else ⟨EX_DATAERR, 0, []⟩
    | none =>
      if w.elfClass == ELFCLASS32 then runMainBody w q 4
      else if w.elfClass == ELFCLASS64 then runMainBody w q 8
      else ⟨EX_DATAERR, 0, []⟩

/-- A member DIE located at ULEB128-encoded offset `off` whose type is a
plain base type of known size `size` — the generic input for the
quantified layout theorems. -/
def mkMember (off size : Nat) : MemberDie :=
  ⟨DW_TAG_member, some "m".toList,
    LocAttr.block (DW_OP_plus_uconst :: uleb_encode off),
    some (TypeDie.noRef DW_TAG_base_type (some "long".toList) (some size))⟩

/-- Like `mkMember` but with the location block's operand bytes given
literally (used for concrete runs). -/
def memAt (operand : List Nat) (size : Nat) : MemberDie :=
  ⟨DW_TAG_member, some "m".toList,
    LocAttr.block (DW_OP_plus_uconst :: operand),
    some (TypeDie.noRef DW_TAG_base_type (some "long".toList) (some size))⟩

/-- An aggregate DIE of total size `sz` whose children are the given
(offset, size) members. -/
def mkStructPairs (sz : Nat) (ps : List (Nat × Nat)) : StructDie :=
  ⟨DW_TAG_structure_type, some "s".toList, some sz,
    ps.map fun p => mkMember p.1 p.2⟩

/-- A chain of `n` pointer DIEs ending in a base type named `char`. -/
def ptrChain : Nat → TypeDie
  | 0 => .noRef DW_TAG_base_type (some "char".toList) (some 1)
  | n + 1 => .withRef DW_TAG_pointer_type none (some 8) (ptrChain n)

/-- Ghost mirror of `probeMember` specialized to a `mkMember`: the same
state arithmetic and events, with the DWARF plumbing already resolved
(`probeMember_mkMember` proves the equivalence). -/
def memberStep (cfg : Config) (st : WalkState) (o s : Nat) : WalkState × List Event :=
  let st1 : WalkState := { st with members := (st.members + 1) % U32 }
  let holePart : List Event × WalkState :=
    if o != st1.lastoff then
      let diff := (o + (W64 - st1.lastoff % W64)) % W64
      ([Event.hole diff],
        { st1 with nholes := (st1.nholes + 1) % U32,
                   holesz := (st1.holesz + diff) % W64 })
    else ([], st1)
  let st3 : WalkState :=
    { holePart.2 with memsz := (holePart.2.memsz + s % W64) % W64,
                      lastoff := (o + s % W64) % W64 }
  let clPart : List Event × WalkState :=
    if st3.lastoff / cfg.cachelinesize > st3.cline then
      let ago := st3.lastoff % cfg.cachelinesize
      let cl := (st3.lastoff / cfg.cachelinesize) % U32
      ((if ago != 0 then [Event.boundaryAgo cl (cl * cfg.cachelinesize) ago]
        else [Event.boundaryExact cl (cl * cfg.cachelinesize)]),
        { st3 with cline := cl })
    else ([], st3)
  (clPart.2,
    holePart.1 ++ [Event.memberLine "long".toList "m;".toList o (s % W64)] ++ clPart.1)

/-- Ghost mirror of `walkMembers` over (offset, size) pairs. -/
def pairWalk (cfg : Config) : WalkState → List (Nat × Nat) → WalkState × List Event
  | st, [] => (st, [])
  | st, p :: ps =>
    let r := memberStep cfg st p.1 p.2
    let r' := pairWalk cfg r.1 ps
    (r'.1, r.2 ++ r'.2)

/-- Hole and member-line events, reduced to their numeric content. -/
inductive HM where
  | hole : Nat → HM
  | mem : Nat → Nat → HM
deriving DecidableEq, Repr

/-- Project a trace onto its hole annotations and member lines. -/
def hmOf (evs : List Event) : List HM :=
  evs.filterMap fun e =>
    match e with
    | .hole n => some (.hole n)
    | .memberLine _ _ o s => some (.mem o s)
    | _ => none

/-- The cache-line indices carried by the boundary annotations of a
trace, in emission order. -/
def boundaryClines (evs : List Event) : List Nat :=
  evs.filterMap fun e =>
    match e with
    | .boundaryAgo c _ _ => some c
    | .boundaryExact c _ => some c
    | _ => none

/-- Modelled from the spec: the sizes of the holes the claim predicts —
one hole of `o_i - prev_end` exactly when `o_i` exceeds the running
end-of-previous-member accumulator (started at 0), so that
`sum = sum(max(0, o_i - (o_(i-1) + size_(i-1))))` and
`count = count of i with o_i > o_(i-1) + size_(i-1)`. -/
def spec_hole_list : Nat → List (Nat × Nat) → List Nat
  | _, [] => []
  | prev, (o, s) :: rest =>
    if prev < o then (o - prev) :: spec_hole_list (o + s) rest
    else spec_hole_list (o + s) rest

/-- Modelled from the spec: the claimed hole count. -/
def spec_hole_count (ps : List (Nat × Nat)) : Nat :=
  (spec_hole_list 0 ps).length

/-- Modelled from the spec: the claimed hole-byte total. -/
def spec_hole_sum (ps : List (Nat × Nat)) : Nat :=
  (spec_hole_list 0 ps).sum

/-- Modelled from the spec: the claimed interleaving of hole
annotations and member lines — each member's line preceded by a hole of
`o - prev_end` exactly when `o > prev_end`. -/
def spec_hm : Nat → List (Nat × Nat) → List HM
  | _, [] => []
  | prev, (o, s) :: rest =>
    (if prev < o then [HM.hole (o - prev)] else []) ++
      HM.mem o s :: spec_hm (o + s) rest

/-- Each member begins at or after the end of the previous one
(offsets sorted and storage non-overlapping), starting from `prev`. -/
def noOverlapFrom : Nat → List (Nat × Nat) → Bool
  | _, [] => true
  | prev, (o, s) :: rest => decide (prev ≤ o) && noOverlapFrom (o + s) rest

/-- The byte offset one past the final member (`prev` for an empty
list). -/
def lastEnd : Nat → List (Nat × Nat) → Nat
  | prev, [] => prev
  | _, (o, s) :: rest => lastEnd (o + s) rest

/-- A pointer-typed DIE with no `DW_AT_type` and no computable
aggregate size (as clang emits for `void *` without `DW_AT_byte_size`). -/
def voidPtrDie : TypeDie :=
  .noRef DW_TAG_pointer_type none none

/-- A member of that pointer type at offset 0. -/
def c1_member : MemberDie :=
  ⟨DW_TAG_member, some "p".toList, .block [DW_OP_plus_uconst, 0], some voidPtrDie⟩

/-- A struct whose only member is `c1_member`. -/
def c1_struct : StructDie :=
  ⟨DW_TAG_structure_type, some "s".toList, some 8, [c1_member]⟩

/-- A member of pointer depth 30 at offset 0. -/
def c5_member : MemberDie :=
  ⟨DW_TAG_member, some "p".toList, .block [DW_OP_plus_uconst, 0], some (ptrChain 30)⟩

/-- A struct whose only member is `c5_member`. -/
def c5_struct : StructDie :=
  ⟨DW_TAG_structure_type, some "s".toList, some 8, [c5_member]⟩

/-- A two-member struct exactly filling one 64-byte cache line. -/
def c3_struct : StructDie :=
  ⟨DW_TAG_structure_type, some "s".toList, some 64, [memAt [0] 32, memAt [32] 32]⟩

/-- A struct named `bar` (not the queried name). -/
def c4_die : StructDie :=
  ⟨DW_TAG_structure_type, some "bar".toList, some 8, [memAt [0] 8]⟩

/-- A world whose only aggregate does not match the query `foo`. -/
def c4_world : World :=
  ⟨true, none, 2, false, 0, [[c4_die]]⟩

/-- A world that opens fine but carries a bogus `EI_CLASS` byte (0). -/
def c8_world : World :=
  ⟨true, none, 0, false, 0, []⟩

/-- A struct named `foo` with one member. -/
def c9_die : StructDie :=
  ⟨DW_TAG_structure_type, some "foo".toList, some 8, [memAt [0] 8]⟩

/-- A world in which the query `foo` matches `c9_die`. -/
def c9_world : World :=
  ⟨true, none, 2, false, 0, [[c9_die]]⟩

/-- A byte stream: one continuation byte, then terminators. -/
def c10dat : Nat → Nat :=
  fun j => if j = 0 then 129 else 2

theorem and_127_eq_mod (b : Nat) : b &&& 127 = b % 128 := by
  have h := Nat.and_pow_two_sub_one_eq_mod b 7
  norm_num at h
  exact h

theorem and_128_eq_zero {b : Nat} (h : b < 128) : b &&& 128 = 0 := by
  have h2 : b &&& 2 ^ 7 = (b.testBit 7).toNat * 2 ^ 7 := Nat.and_two_pow b 7
  have h3 : b.testBit 7 = false := Nat.testBit_lt_two_pow (by norm_num; omega)
  rw [h3] at h2
  simpa using h2

theorem and_128_ne_zero {b : Nat} (hlo : 128 ≤ b) (hhi : b < 256) : b &&& 128 ≠ 0 := by
  have h2 : b &&& 2 ^ 7 = (b.testBit 7).toNat * 2 ^ 7 := Nat.and_two_pow b 7
  have h3 : b.testBit 7 = true := by
    rw [Nat.testBit_to_div_mod]
    have hd : b / 2 ^ 7 = 1 := by
      norm_num
      omega
    rw [hd]
    rfl
  rw [h3] at h2
  norm_num at h2
  omega

theorem lor_shiftLeft_eq_add {a : Nat} (b n : Nat) (h : a < 2 ^ n) :
    a ||| (b <<< n) = a + b * 2 ^ n := by
  have h2 := Nat.mul_add_lt_is_or h b
  rw [Nat.shiftLeft_eq, Nat.lor_comm, Nat.mul_comm b (2 ^ n), ← h2]
  omega

theorem uleb_go_encode (v : Nat) : ∀ out shift, out < 2 ^ shift →
    out + v * 2 ^ shift < 2 ^ 64 →
    uleb_go (uleb_encode v) out shift = some (out + v * 2 ^ shift) := by
  induction v using Nat.strong_induction_on with
  | _ v ih =>
    intro out shift hout hbound
    rw [uleb_encode]
    by_cases hv : v < 128
    · rw [dif_pos hv]
      have hb : v % 256 = v := Nat.mod_eq_of_lt (by omega)
      have hterm : v % 256 &&& 128 = 0 := by rw [hb]; exact and_128_eq_zero hv
      have hlow : v % 256 &&& 127 = v := by rw [hb, and_127_eq_mod, Nat.mod_eq_of_lt hv]
      simp only [uleb_go, hlow, hterm, beq_self_eq_true, if_true]
      rw [lor_shiftLeft_eq_add v shift hout, Nat.mod_eq_of_lt (by unfold W64; omega)]
    · rw [dif_neg hv]
      have hb : (v % 128 + 128) % 256 = v % 128 + 128 := Nat.mod_eq_of_lt (by omega)
      have hcont : (v % 128 + 128) % 256 &&& 128 ≠ 0 := by
        rw [hb]; exact and_128_ne_zero (by omega) (by omega)
      have hlow : (v % 128 + 128) % 256 &&& 127 = v % 128 := by
        rw [hb, and_127_eq_mod]
        omega
      simp only [uleb_go, hlow]
      rw [if_neg (by simpa using hcont)]
      have hval : v % 128 + 128 * (v / 128) = v := by omega
      have hout' : out + v % 128 * 2 ^ shift < 2 ^ (shift + 7) := by
        have h1 : v % 128 ≤ 127 := by omega
        have h2 : v % 128 * 2 ^ shift ≤ 127 * 2 ^ shift :=
          Nat.mul_le_mul_right _ h1
        have h3 : 2 ^ (shift + 7) = 2 ^ shift * 128 := by
          rw [pow_add]; norm_num
        omega
      have hsum : out + v % 128 * 2 ^ shift + v / 128 * 2 ^ (shift + 7) =
          out + v * 2 ^ shift := by
        have h3 : 2 ^ (shift + 7) = 2 ^ shift * 128 := by
          rw [pow_add]; norm_num
        calc out + v % 128 * 2 ^ shift + v / 128 * 2 ^ (shift + 7)
            = out + (v % 128 + 128 * (v / 128)) * 2 ^ shift := by rw [h3]; ring
          _ = out + v * 2 ^ shift := by rw [hval]
      rw [lor_shiftLeft_eq_add (v % 128) shift hout,
        Nat.mod_eq_of_lt (show out + v % 128 * 2 ^ shift < W64 by
          unfold W64; omega)]
      rw [ih (v / 128) (Nat.div_lt_self (by omega) (by omega)) _ (shift + 7)
        hout' (by omega), hsum]

theorem get_uleb128_encode (v : Nat) (h : v < 2 ^ 64) :
    get_uleb128 (uleb_encode v) = some v := by
  have h2 := uleb_go_encode v 0 0 (by norm_num) (by simpa using h)
  simpa [get_uleb128] using h2

theorem get_member_offset_mkMember (o s : Nat) (h : o < 2 ^ 64) :
    get_member_offset (mkMember o s) = .ok o := by
  simp [get_member_offset, mkMember, get_uleb128_encode o h]

theorem probeMember_mkMember (cfg : Config) (st : WalkState) (o s : Nat)
    (h : o < 2 ^ 64) :
    probeMember cfg st (mkMember o s) = .ok (memberStep cfg st o s) := by
  have hoff := get_member_offset_mkMember o s h
  simp only [probeMember, memberStep, hoff, get_member_size, formatType]
  norm_num [mkMember, isstruct, DW_TAG_member, DW_TAG_base_type,
    DW_TAG_pointer_type, DW_TAG_structure_type, DW_TAG_class_type,
    DW_TAG_interface_type, DW_TAG_enumeration_type, TypeDie.tag,
    TypeDie.name, TypeDie.aggSize]

theorem walkMembers_pairWalk (cfg : Config) (ps : List (Nat × Nat)) :
    ∀ st, (∀ p ∈ ps, p.1 < 2 ^ 64) →
    walkMembers cfg st (ps.map fun p => mkMember p.1 p.2) =
      .ok (pairWalk cfg st ps) := by
  induction ps with
  | nil =>
    intro st _
    rfl
  | cons p ps ih =>
    intro st hb
    simp only [List.map_cons, walkMembers, pairWalk,
      probeMember_mkMember cfg st p.1 p.2 (hb p (by simp)),
      ih (memberStep cfg st p.1 p.2).1 (fun q hq => hb q (by simp [hq]))]

theorem hmOf_append (a b : List Event) : hmOf (a ++ b) = hmOf a ++ hmOf b := by
  simp [hmOf, List.filterMap_append]

theorem boundaryClines_append (a b : List Event) :
    boundaryClines (a ++ b) = boundaryClines a ++ boundaryClines b := by
  simp [boundaryClines, List.filterMap_append]

theorem memberStep_spec (cfg : Config) (st : WalkState) (o s : Nat)
    (hol : st.lastoff ≤ o) (hb : o + s < 2 ^ 64) (hlo : st.lastoff < 2 ^ 64) :
    hmOf (memberStep cfg st o s).2 =
      (if st.lastoff < o then [HM.hole (o - st.lastoff)] else []) ++ [HM.mem o s] ∧
    (memberStep cfg st o s).1.lastoff = o + s ∧
    (memberStep cfg st o s).1.nholes =
      (if st.lastoff < o then (st.nholes + 1) % 2 ^ 32 else st.nholes) ∧
    (memberStep cfg st o s).1.holesz =
      (if st.lastoff < o then (st.holesz + (o - st.lastoff)) % 2 ^ 64 else st.holesz) := by
  have hs : s % W64 = s := Nat.mod_eq_of_lt (by unfold W64; omega)
  unfold memberStep
  simp only [hs]
  have hos : (o + s) % W64 = o + s := Nat.mod_eq_of_lt (by unfold W64; omega)
  simp only [hos]
  rcases Nat.lt_or_ge st.lastoff o with hlt | hge
  · have hne : (o != st.lastoff) = true := by
      simp only [bne_iff_ne, ne_eq, decide_eq_true_eq]
      omega
    have hdiff : (o + (W64 - st.lastoff % W64)) % W64 = o - st.lastoff := by
      unfold W64
      omega
    simp only [hne, if_true, hdiff]
    refine ⟨?_, ?_, ?_, ?_⟩ <;> split_ifs <;>
      simp_all [hmOf, U32, W64]
  · have heq : o = st.lastoff := by omega
    have hne : (o != st.lastoff) = false := by
      simp only [bne_eq_false_iff_eq, decide_eq_true_eq]
      omega
    have hnlt : ¬ st.lastoff < o := by omega
    simp only [hne]
    refine ⟨?_, ?_, ?_, ?_⟩ <;> split_ifs <;>
      simp_all [hmOf, U32, W64]

theorem pairWalk_holes (cfg : Config) (ps : List (Nat × Nat)) :
    ∀ st : WalkState,
    (∀ p ∈ ps, p.1 + p.2 < 2 ^ 64) →
    noOverlapFrom st.lastoff ps = true →
    st.lastoff < 2 ^ 64 →
    st.nholes + ps.length < 2 ^ 32 →
    st.holesz + (spec_hole_list st.lastoff ps).sum < 2 ^ 64 →
    hmOf (pairWalk cfg st ps).2 = spec_hm st.lastoff ps ∧
    (pairWalk cfg st ps).1.nholes = st.nholes + (spec_hole_list st.lastoff ps).length ∧
    (pairWalk cfg st ps).1.holesz = st.holesz + (spec_hole_list st.lastoff ps).sum ∧
    (pairWalk cfg st ps).1.lastoff = lastEnd st.lastoff ps := by
  induction ps with
  | nil =>
    intro st _ _ _ _ _
    simp [pairWalk, spec_hm, spec_hole_list, lastEnd, hmOf]
  | cons p ps ih =>
    intro st hb hc hlo hn hh
    obtain ⟨o, s⟩ := p
    have hobs : o + s < 2 ^ 64 := hb (o, s) (by simp)
    have hc1 : st.lastoff ≤ o ∧ noOverlapFrom (o + s) ps = true := by
      simpa [noOverlapFrom, Bool.and_eq_true] using hc
    obtain ⟨hms1, hms2, hms3, hms4⟩ := memberStep_spec cfg st o s hc1.1 hobs hlo
    have hlen : st.nholes + (ps.length + 1) < 2 ^ 32 := by simpa using hn
    have hsum : st.holesz + (spec_hole_list st.lastoff ((o, s) :: ps)).sum < 2 ^ 64 := hh
    have hrest : spec_hole_list st.lastoff ((o, s) :: ps) =
        (if st.lastoff < o then [o - st.lastoff] else []) ++ spec_hole_list (o + s) ps := by
      by_cases hlt : st.lastoff < o <;> simp [spec_hole_list, hlt]
    have hsum2 : st.holesz + (if st.lastoff < o then o - st.lastoff else 0) +
        (spec_hole_list (o + s) ps).sum < 2 ^ 64 := by
      rw [hrest] at hsum
      by_cases hlt : st.lastoff < o <;> simp [hlt] at hsum ⊢ <;> omega
    have hms3' : (memberStep cfg st o s).1.nholes =
        st.nholes + (if st.lastoff < o then 1 else 0) := by
      rw [hms3]
      split_ifs with hlt
      · rw [Nat.mod_eq_of_lt (by omega)]
      · omega
    have hms4' : (memberStep cfg st o s).1.holesz =
        st.holesz + (if st.lastoff < o then o - st.lastoff else 0) := by
      rw [hms4]
      split_ifs with hlt
      · rw [if_pos hlt] at hsum2
        rw [Nat.mod_eq_of_lt (by omega)]
      · omega
    obtain ⟨ih1, ih2, ih3, ih4⟩ := ih (memberStep cfg st o s).1
      (fun q hq => hb q (by simp [hq]))
      (by rw [hms2]; exact hc1.2)
      (by rw [hms2]; omega)
      (by rw [hms3']; split_ifs <;> omega)
      (by rw [hms4', hms2]; omega)
    simp only [pairWalk, hmOf_append, hms1, ih1, hms2, ih2, ih3, ih4, hms3', hms4',
      spec_hm, lastEnd, hrest]
    refine ⟨by simp, ?_, ?_, by trivial⟩
    · by_cases hlt : st.lastoff < o <;> (simp [hlt]; all_goals omega)
    · by_cases hlt : st.lastoff < o <;> (simp [hlt]; all_goals omega)

theorem memberStep_cline (cfg : Config) (st : WalkState) (o s : Nat)
    (hb : o + s < 2 ^ 64) :
    (memberStep cfg st o s).1.cline =
      (if (o + s) / cfg.cachelinesize > st.cline
       then ((o + s) / cfg.cachelinesize) % 2 ^ 32 else st.cline) ∧
    (memberStep cfg st o s).1.lastoff = o + s := by
  have hs : s % W64 = s := Nat.mod_eq_of_lt (by unfold W64; omega)
  unfold memberStep
  simp only [hs]
  have hos : (o + s) % W64 = o + s := Nat.mod_eq_of_lt (by unfold W64; omega)
  simp only [hos]
  split_ifs <;> simp_all [U32]

theorem memberStep_boundary (cfg : Config) (st : WalkState) (o s : Nat)
    (hb : o + s < 2 ^ 64) :
    boundaryClines (memberStep cfg st o s).2 =
      (if (o + s) / cfg.cachelinesize > st.cline
       then [((o + s) / cfg.cachelinesize) % 2 ^ 32] else []) ∧
    (∀ c pos a, Event.boundaryAgo c pos a ∈ (memberStep cfg st o s).2 → a ≠ 0) := by
  have hs : s % W64 = s := Nat.mod_eq_of_lt (by unfold W64; omega)
  unfold memberStep
  simp only [hs]
  have hos : (o + s) % W64 = o + s := Nat.mod_eq_of_lt (by unfold W64; omega)
  simp only [hos]
  split_ifs <;> simp_all [boundaryClines, U32]

theorem lastEnd_lt (ps : List (Nat × Nat)) :
    ∀ prev, (∀ p ∈ ps, p.1 + p.2 < 2 ^ 64) → prev < 2 ^ 64 →
    lastEnd prev ps < 2 ^ 64 := by
  induction ps with
  | nil =>
    intro prev _ h
    simpa [lastEnd] using h
  | cons p ps ih =>
    intro prev hb _
    simp only [lastEnd]
    exact ih _ (fun q hq => hb q (by simp [hq])) (hb p (by simp))

theorem spec_hole_sum_le (ps : List (Nat × Nat)) :
    ∀ prev, noOverlapFrom prev ps = true →
    prev + (spec_hole_list prev ps).sum ≤ lastEnd prev ps := by
  induction ps with
  | nil =>
    intro prev _
    simp [spec_hole_list, lastEnd]
  | cons p ps ih =>
    intro prev hc
    obtain ⟨o, s⟩ := p
    have hc1 : prev ≤ o ∧ noOverlapFrom (o + s) ps = true := by
      simpa [noOverlapFrom, Bool.and_eq_true] using hc
    have h2 := ih (o + s) hc1.2
    simp only [spec_hole_list, lastEnd]
    split_ifs with hlt
    · simp only [List.sum_cons]
      omega
    · omega

theorem structprobe_pairs (cfg : Config) (sz : Nat) (ps : List (Nat × Nat))
    (hne : ps ≠ []) (hb : ∀ p ∈ ps, p.1 < 2 ^ 64) :
    structprobe cfg (mkStructPairs sz ps) =
      .ok (Event.header "s".toList :: (pairWalk cfg initState ps).2 ++
        [Event.summary (sz % W64) (((pairWalk cfg initState ps).1.cline + 1) % U32)
          (pairWalk cfg initState ps).1.members (pairWalk cfg initState ps).1.memsz
          (pairWalk cfg initState ps).1.nholes (pairWalk cfg initState ps).1.holesz
          ((pairWalk cfg initState ps).1.lastoff % cfg.cachelinesize),
         Event.closing]) := by
  obtain ⟨q, qs, rfl⟩ := List.exists_cons_of_ne_nil hne
  have hw := walkMembers_pairWalk cfg (q :: qs) initState hb
  simp only [List.map_cons] at hw
  simp only [structprobe, mkStructPairs, List.map_cons, hw]
  rfl

theorem pairWalk_cline (ps : List (Nat × Nat)) :
    ∀ st : WalkState,
    noOverlapFrom st.lastoff ps = true →
    (∀ p ∈ ps, p.1 + p.2 ≤ 64) →
    st.lastoff ≤ 64 →
    st.cline = st.lastoff / 64 →
    (pairWalk defaultCfg st ps).1.cline = lastEnd st.lastoff ps / 64 ∧
    (pairWalk defaultCfg st ps).1.lastoff = lastEnd st.lastoff ps ∧
    lastEnd st.lastoff ps ≤ 64 := by
  induction ps with
  | nil =>
    intro st _ _ hlo hcl
    simp [pairWalk, lastEnd, hcl, hlo]
  | cons p ps ih =>
    intro st hc hb hlo hcl
    obtain ⟨o, s⟩ := p
    have hos : o + s ≤ 64 := hb (o, s) (by simp)
    have hc1 : st.lastoff ≤ o ∧ noOverlapFrom (o + s) ps = true := by
      simpa [noOverlapFrom, Bool.and_eq_true] using hc
    obtain ⟨hcl', hlo'⟩ := memberStep_cline defaultCfg st o s (by omega)
    have hcl2 : (memberStep defaultCfg st o s).1.cline = (o + s) / 64 := by
      rw [hcl']
      show (if (o + s) / 64 > st.cline then ((o + s) / 64) % 2 ^ 32 else st.cline) = _
      split_ifs with hgt
    

      · exact Nat.mod_eq_of_lt (by omega)
      · have h1 : st.lastoff / 64 ≤ (o + s) / 64 :=
          Nat.div_le_div_right (by omega)
        omega
    have := ih (memberStep defaultCfg st o s).1
      (by rw [hlo']; exact hc1.2)
      (fun q hq => hb q (by simp [hq]))
      (by rw [hlo']; omega)
      (by rw [hcl2, hlo'])
    rw [hlo'] at this
    simp only [pairWalk, lastEnd]
    exact this

theorem pairWalk_boundary (ps : List (Nat × Nat)) :
    ∀ st : WalkState,
    (∀ p ∈ ps, p.1 + p.2 < 2 ^ 38) →
    List.Pairwise (· < ·) (boundaryClines (pairWalk defaultCfg st ps).2) ∧
    (∀ c ∈ boundaryClines (pairWalk defaultCfg st ps).2,
      st.cline < c ∧ c ≤ (pairWalk defaultCfg st ps).1.cline) ∧
    st.cline ≤ (pairWalk defaultCfg st ps).1.cline ∧
    (∀ c pos a, Event.boundaryAgo c pos a ∈ (pairWalk defaultCfg st ps).2 → a ≠ 0) := by
  induction ps with
  | nil =>
    intro st _
    simp [pairWalk, boundaryClines]
  | cons p ps ih =>
    intro st hb
    obtain ⟨o, s⟩ := p
    have hos : o + s < 2 ^ 38 := hb (o, s) (by simp)
    have hb64 : o + s < 2 ^ 64 := by omega
    obtain ⟨hbc, hago⟩ := memberStep_boundary defaultCfg st o s hb64
    obtain ⟨hcl', hlo'⟩ := memberStep_cline defaultCfg st o s hb64
    have hcls : defaultCfg.cachelinesize = 64 := rfl
    rw [hcls] at hbc hcl'
    have hmod : ((o + s) / 64) % 2 ^ 32 = (o + s) / 64 :=
      Nat.mod_eq_of_lt (by omega)
    rw [hmod] at hbc hcl'
    obtain ⟨ih1, ih2, ih3, ih4⟩ := ih (memberStep defaultCfg st o s).1
      (fun q hq => hb q (by simp [hq]))
    simp only [pairWalk, boundaryClines_append]
    by_cases hgt : (o + s) / 64 > st.cline
    · rw [if_pos hgt] at hbc hcl'
      refine ⟨?_, ?_, ?_, ?_⟩
      · rw [hbc, List.pairwise_append]
        refine ⟨by simp, ih1, ?_⟩
        intro a ha b hbm
        simp only [List.mem_singleton] at ha
        subst ha
        have h5 := (ih2 b hbm).1
        rw [hcl'] at h5
        exact h5
      · intro c hc
        rw [hbc] at hc
        rcases List.mem_append.mp hc with h | h
        · simp only [List.mem_singleton] at h
          subst h
          refine ⟨hgt, ?_⟩
          rw [← hcl']
          exact ih3
        · obtain ⟨h1, h2⟩ := ih2 c h
          rw [hcl'] at h1
          exact ⟨by omega, h2⟩
      · rw [hcl'] at ih3
        omega
      · intro c pos a hmem
        rcases List.mem_append.mp hmem with h | h
        · exact hago c pos a h
        · exact ih4 c pos a h
    · rw [if_neg hgt] at hbc hcl'
      refine ⟨?_, ?_, ?_, ?_⟩
      · rw [hbc]
        simpa using ih1
      · intro c hc
        rw [hbc] at hc
        simp only [List.nil_append] at hc
        obtain ⟨h1, h2⟩ := ih2 c hc
        rw [hcl'] at h1
        exact ⟨h1, h2⟩
      · rw [← hcl']
        exact ih3
      · intro c pos a hmem
        rcases List.mem_append.mp hmem with h | h
        · exact hago c pos a h
        · exact ih4 c pos a h

theorem get_uleb128_stream_some (fuel : Nat) :
    ∀ (dat : Nat → Nat) (i out shift v n : Nat),
    get_uleb128_stream fuel dat i out shift = some (v, n) →
    i < n ∧ dat (n - 1) % 256 &&& 128 = 0 ∧
      ∀ j, i ≤ j → j < n - 1 → dat j % 256 &&& 128 ≠ 0 := by
  induction fuel with
  | zero =>
    intro dat i out shift v n h
    simp [get_uleb128_stream] at h
  | succ fuel ih =>
    intro dat i out shift v n h
    simp only [get_uleb128_stream] at h
    by_cases hterm : dat i % 256 &&& 128 = 0
    · rw [if_pos (by simpa using hterm)] at h
      simp only [Option.some.injEq, Prod.mk.injEq] at h
      obtain ⟨_, hn⟩ := h
      subst hn
      refine ⟨by omega, by simpa using hterm, ?_⟩
      intro j h1 h2
      omega
    · rw [if_neg (by simpa using hterm)] at h
      obtain ⟨h1, h2, h3⟩ := ih dat (i + 1) _ _ v n h
      refine ⟨by omega, h2, ?_⟩
      intro j hij hjn
      by_cases hji : j = i
      · subst hji
        exact hterm
      · exact h3 j (by omega) hjn

theorem get_uleb128_stream_exists (k : Nat) :
    ∀ (dat : Nat → Nat) (i out shift : Nat),
    dat (i + k) % 256 &&& 128 = 0 →
    ∃ r, get_uleb128_stream (k + 1) dat i out shift = some r := by
  induction k with
  | zero =>
    intro dat i out shift h
    simp only [get_uleb128_stream]
    rw [if_pos (by simpa using h)]
    exact ⟨_, rfl⟩
  | succ k ih =>
    intro dat i out shift h
    simp only [get_uleb128_stream]
    by_cases hterm : dat i % 256 &&& 128 = 0
    · rw [if_pos (by simpa using hterm)]
      exact ⟨_, rfl⟩
    · rw [if_neg (by simpa using hterm)]
      exact ih dat (i + 1) _ _ (by rw [show i + 1 + k = i + (k + 1) by omega]; exact h)

theorem get_uleb128_stream_none (fuel : Nat) :
    ∀ (dat : Nat → Nat) (i out shift : Nat),
    (∀ j, dat j % 256 &&& 128 ≠ 0) →
    get_uleb128_stream fuel dat i out shift = none := by
  induction fuel with
  | zero =>
    intro dat i out shift _
    rfl
  | succ fuel ih =>
    intro dat i out shift h
    simp only [get_uleb128_stream]
    rw [if_neg (by simpa using h i)]
    exact ih dat (i + 1) _ _ h

theorem chase_ptrChain (n : Nat) :
    ∀ lvl tg, chase (ptrChain (n + 1)) lvl tg = (ptrChain 0, lvl + (n + 1), tg, []) := by
  induction n with
  | zero =>
    intro lvl tg
    rfl
  | succ n ih =>
    intro lvl tg
    have h1 : ptrChain (n + 1 + 1) =
        .withRef DW_TAG_pointer_type none (some 8) (ptrChain (n + 1)) := rfl
    have h2 : ((ptrChain (n + 1)).tag == DW_TAG_base_type) = false := by
      simp [ptrChain, TypeDie.tag, DW_TAG_pointer_type, DW_TAG_base_type]
    have h3 : (DW_TAG_pointer_type == DW_TAG_pointer_type) = true := rfl
    have h4 : lvl + 1 + (n + 1) = lvl + (n + 1 + 1) := by omega
    rw [h1, chase]
    simp only [chaseStep, h3, if_true, h2, Bool.false_eq_true, if_false,
      ih (lvl + 1) tg, List.nil_append, h4]

theorem ptr_suffix_length (m : Nat) : (ptr_suffix m).length ≤ 31 := by
  simp only [ptr_suffix, List.length_cons, List.length_replicate]
  split_ifs <;> omega

theorem ptr_suffix_count (m : Nat) : (ptr_suffix m).count '*' = min m 30 := by
  simp only [ptr_suffix]
  rw [List.count_cons_of_ne (by decide)]
  rw [List.count_replicate]
  split_ifs <;> (simp_all; all_goals omega)

theorem formatType_ptrChain (n : Nat) :
    (formatType (ptrChain (n + 1))).1 = "char".toList ++ ptr_suffix (n + 1) ∧
    (formatType (ptrChain (n + 1))).2 = [] := by
  have hc := chase_ptrChain n 0 []
  have htag : (ptrChain (n + 1)).tag = DW_TAG_pointer_type := by
    simp [ptrChain, TypeDie.tag]
  have hlen : ("char".toList ++ ptr_suffix (n + 1)).length ≤ 127 := by
    have := ptr_suffix_length (n + 1)
    simp only [List.length_append]
    norm_num
    omega
  constructor
  · simp only [formatType, htag, hc, isstruct]
    norm_num [DW_TAG_pointer_type, DW_TAG_structure_type, DW_TAG_class_type,
      DW_TAG_interface_type, DW_TAG_enumeration_type]
    rw [show TypeDie.name (ptrChain 0) = some "char".toList from rfl]
    simp only [Option.getD_some, List.nil_append]
    exact List.take_of_length_le hlen
  · simp only [formatType, htag, hc, isstruct]
    norm_num [DW_TAG_pointer_type, DW_TAG_structure_type, DW_TAG_class_type,
      DW_TAG_interface_type, DW_TAG_enumeration_type]

theorem get_member_offset_error (m : MemberDie) (f : Fatal)
    (h : get_member_offset m = .error f) :
    f = .dwarfErr EX_DATAERR ∨ f = .assertFail ∨ f = .oobRead := by
  unfold get_member_offset at h
  repeat' split at h
  all_goals simp_all

theorem get_member_size_error (psz : Nat) (t : TypeDie) (u : Nat) (f : Fatal)
    (h : get_member_size psz t u = .error f) : f = .dwarfErr EX_DATAERR := by
  unfold get_member_size at h
  repeat' split at h
  all_goals simp_all

theorem probeMember_error_cases (cfg : Config) (st : WalkState) (m : MemberDie)
    (f : Fatal) (h : probeMember cfg st m = .error f) :
    f = .dwarfErr EX_DATAERR ∨ f = .assertFail ∨ f = .oobRead := by
  unfold probeMember at h
  repeat' split at h
  all_goals try (injection h with h2
                 subst h2)
  all_goals try (rename_i heq
                 first
                   | exact get_member_offset_error _ _ heq
                   | exact Or.inl (get_member_size_error _ _ _ _ heq))
  all_goals simp_all

theorem walkMembers_error_cases (cfg : Config) (ds : List MemberDie) :
    ∀ st f, walkMembers cfg st ds = .error f →
    f = .dwarfErr EX_DATAERR ∨ f = .assertFail ∨ f = .oobRead := by
  induction ds with
  | nil =>
    intro st f h
    simp [walkMembers] at h
  | cons d ds ih =>
    intro st f h
    simp only [walkMembers] at h
    repeat' split at h
    all_goals try (injection h with h2
                   subst h2)
    all_goals try (rename_i heq
                   first
                     | exact probeMember_error_cases _ _ _ _ heq
                     | exact ih _ _ heq)
    all_goals simp_all

theorem structprobe_error_cases (cfg : Config) (d : StructDie) (f : Fatal)
    (h : structprobe cfg d = .error f) :
    f = .dwarfErr EX_DATAERR ∨ f = .noChildren ∨ f = .assertFail ∨ f = .oobRead := by
  unfold structprobe at h
  repeat' split at h
  all_goals try (injection h with h2
                 subst h2)
  all_goals first
    | (solve
        | simp_all)
    | (rename_i heq
       rcases walkMembers_error_cases _ _ _ _ heq with h3 | h3 | h3 <;> simp [h3])

theorem structprobe_ne_noChildren (cfg : Config) (d : StructDie)
    (hch : d.children ≠ []) :
    structprobe cfg d ≠ .error Fatal.noChildren := by
  intro h
  unfold structprobe at h
  repeat' split at h
  all_goals try (injection h with h2
                 subst h2)
  all_goals first
    | (solve
        | simp_all)
    | (rename_i heq
       rcases walkMembers_error_cases _ _ _ _ heq with h3 | h3 | h3 <;> simp_all)

theorem findMatchIn_some (cus : List (List StructDie)) :
    ∀ q d, findMatchIn cus q = some d → matchesQuery q d = true := by
  induction cus with
  | nil =>
    intro q d h
    simp [findMatchIn] at h
  | cons cu rest ih =>
    intro q d h
    simp only [findMatchIn] at h
    cases hf : findIn q cu with
    | some d2 =>
      rw [hf] at h
      simp only [Option.some.injEq] at h
      subst h
      exact List.find?_some hf
    | none =>
      rw [hf] at h
      exact ih q d h

theorem matchesQuery_props (q : List Char) (d : StructDie)
    (h : matchesQuery q d = true) :
    d.children ≠ [] ∧ d.name = some q := by
  unfold matchesQuery at h
  simp only [Bool.and_eq_true] at h
  obtain ⟨⟨h1, h2⟩, h3⟩ := h
  constructor
  · intro hnil
    rw [hnil] at h2
    simp at h2
  · cases hn : d.name with
    | none =>
      rw [hn] at h3
      simp at h3
    | some n =>
      rw [hn] at h3
      simp only [beq_iff_eq] at h3
      rw [h3]

/-- Claim C7: decoding the base-128 variable-length encoding of any
representable unsigned value (any `v < 2 ^ 64`, the width of
`Dwarf_Word`) with `get_uleb128` yields `v` back:
`decode(encode(v)) = v`. -/
theorem c7_uleb_roundtrip (v : Nat) (h : v < 2 ^ 64) :
    get_uleb128 (uleb_encode v) = some v :=
  get_uleb128_encode v h

/-- Witness for C7 at the largest representable value. -/
theorem c7_uleb_roundtrip_witness :
    get_uleb128 (uleb_encode (2 ^ 64 - 1)) = some (2 ^ 64 - 1) :=
  c7_uleb_roundtrip (2 ^ 64 - 1) (by norm_num)

/-- Claim C10: the ULEB128 decoder loop terminates if and only if the
byte stream contains a byte with bit 7 clear; when it terminates it has
consumed exactly the prefix up to and including the first such byte
(byte `n - 1` has bit 7 clear, all earlier bytes have it set); on a
stream of all-continuation bytes it never terminates (no fuel
suffices). -/
theorem c10_uleb_termination (dat : Nat → Nat) :
    ((∃ fuel r, get_uleb128_stream fuel dat 0 0 0 = some r) ↔
      ∃ i, dat i % 256 &&& 128 = 0) ∧
    (∀ fuel v n, get_uleb128_stream fuel dat 0 0 0 = some (v, n) →
      0 < n ∧ dat (n - 1) % 256 &&& 128 = 0 ∧
        ∀ j, j < n - 1 → dat j % 256 &&& 128 ≠ 0) ∧
    ((∀ i, dat i % 256 &&& 128 ≠ 0) →
      ∀ fuel, get_uleb128_stream fuel dat 0 0 0 = none) := by
  refine ⟨⟨?_, ?_⟩, ?_, ?_⟩
  · rintro ⟨fuel, ⟨v, n⟩, hr⟩
    obtain ⟨_, h2, _⟩ := get_uleb128_stream_some fuel dat 0 0 0 v n hr
    exact ⟨n - 1, h2⟩
  · rintro ⟨i, hi⟩
    obtain ⟨r, hr⟩ := get_uleb128_stream_exists i dat 0 0 0 (by simpa using hi)
    exact ⟨i + 1, r, hr⟩
  · intro fuel v n hr
    obtain ⟨h1, h2, h3⟩ := get_uleb128_stream_some fuel dat 0 0 0 v n hr
    exact ⟨h1, h2, fun j hj => h3 j (by omega) hj⟩
  · intro hall fuel
    exact get_uleb128_stream_none fuel dat 0 0 0 hall

/-- Witness for C10 on a concrete stream (`0x81`, then `0x02`): the run
with fuel 2 returns value 257 after consuming exactly 2 bytes, and the
consumed prefix is characterized as the claim states. -/
theorem c10_uleb_termination_witness :
    0 < 2 ∧ c10dat (2 - 1) % 256 &&& 128 = 0 ∧
      ∀ j, j < 2 - 1 → c10dat j % 256 &&& 128 ≠ 0 :=
  (c10_uleb_termination c10dat).2.1 2 257 2 rfl

/-- Claim C1 (code bug): for a pointer-typed member whose type DIE has
no computable aggregate size, `get_member_size` returns `pointer_size`
as its **return status** without storing it through `msize_out`; the
caller only checks for `-1`, so the walk succeeds (no fatal path) but
the layout line and the member-byte total report the uninitialized
`msize` value (here 0 and then 5), never the addressing width 8. -/
theorem c1_pointer_size_lost :
    structprobe ⟨64, 8, 0⟩ c1_struct =
      .ok [Event.header "s".toList,
        Event.memberLine "<anonymous> *".toList "p;".toList 0 0,
        Event.summary 8 1 1 0 0 0 0, Event.closing] ∧
    structprobe ⟨64, 8, 5⟩ c1_struct =
      .ok [Event.header "s".toList,
        Event.memberLine "<anonymous> *".toList "p;".toList 0 5,
        Event.summary 8 1 1 5 0 0 5, Event.closing] ∧
    (0 : Nat) ≠ 8 ∧ (5 : Nat) ≠ 8 :=
  ⟨rfl, rfl, by decide, by decide⟩

/-- Counterexample to claim C2: the member list `[(0, 8), (4, 4)]` has
sorted offsets (0 ≤ 4), and the claim's formulas predict no hole
(member 1 does not *exceed* the accumulator: 4 < 0 + 8).  The code
tests `off != lastoff`, so it records one hole whose unsigned
`off - lastoff` wraps to `2 ^ 64 - 4` bytes. -/
theorem c2_counterexample :
    walkMembers defaultCfg initState [memAt [0] 8, memAt [4] 4] =
      .ok (⟨8, 0, 2, 1, 12, 2 ^ 64 - 4⟩,
        [Event.memberLine "long".toList "m;".toList 0 8,
         Event.hole (2 ^ 64 - 4),
         Event.memberLine "long".toList "m;".toList 4 4]) ∧
    spec_hole_count [(0, 8), (4, 4)] = 0 ∧
    spec_hole_sum [(0, 8), (4, 4)] = 0 ∧
    (1 : Nat) ≠ 0 :=
  ⟨rfl, rfl, rfl, by decide⟩

/-- Claim C2 as amended: a hole is recorded exactly when the member's
offset *differs from* (not merely exceeds) the running accumulator; for
member lists in which every member starts at or after the end of the
previous one (no overlap), with offsets and ends below `2 ^ 64` and
fewer than `2 ^ 32` members, the emitted hole/member-line interleaving,
the final hole count and the final hole-byte total all equal the
claimed formulas `sum(max(0, o_i - (o_(i-1) + size_(i-1))))` and
`count of i with o_i > o_(i-1) + size_(i-1)` (accumulator started
at 0). -/
theorem c2_hole_accounting (ps : List (Nat × Nat))
    (hb : ∀ p ∈ ps, p.1 + p.2 < 2 ^ 64)
    (hc : noOverlapFrom 0 ps = true)
    (hl : ps.length < 2 ^ 32) :
    ∃ st evs,
      walkMembers defaultCfg initState (ps.map fun p => mkMember p.1 p.2) =
        .ok (st, evs) ∧
      hmOf evs = spec_hm 0 ps ∧
      st.nholes = spec_hole_count ps ∧
      st.holesz = spec_hole_sum ps ∧
      st.lastoff = lastEnd 0 ps := by
  have hw := walkMembers_pairWalk defaultCfg ps initState
    (fun p hp => by have := hb p hp; omega)
  have hlast : lastEnd 0 ps < 2 ^ 64 := lastEnd_lt ps 0 hb (by norm_num)
  have hsle := spec_hole_sum_le ps 0 hc
  have hph := pairWalk_holes defaultCfg ps initState hb hc (by simp [initState])
    (by simpa [initState] using hl)
    (by show (0 : Nat) + (spec_hole_list 0 ps).sum < 2 ^ 64; omega)
  refine ⟨(pairWalk defaultCfg initState ps).1, (pairWalk defaultCfg initState ps).2,
    by rw [hw], hph.1, ?_, ?_, ?_⟩
  · have h2 := hph.2.1
    simpa [spec_hole_count, initState] using h2
  · have h3 := hph.2.2.1
    simpa [spec_hole_sum, initState] using h3
  · simpa [initState] using hph.2.2.2

/-- Witness for C2 (amended) on `[(0, 8), (16, 8)]` — one real 8-byte
hole. -/
theorem c2_hole_accounting_witness :
    ∃ st evs,
      walkMembers defaultCfg initState
        ([(0, 8), (16, 8)].map fun p => mkMember p.1 p.2) = .ok (st, evs) ∧
      hmOf evs = spec_hm 0 [(0, 8), (16, 8)] ∧
      st.nholes = spec_hole_count [(0, 8), (16, 8)] ∧
      st.holesz = spec_hole_sum [(0, 8), (16, 8)] ∧
      st.lastoff = lastEnd 0 [(0, 8), (16, 8)] :=
  c2_hole_accounting [(0, 8), (16, 8)] (by decide) (by decide) (by decide)

/-- Counterexample to claim C3: the aggregate `c3_struct` exactly fills
64 bytes (members end at offset 64), yet the summary reports
`cachelines: 2`, not 1 — the boundary crossing that lands exactly on
the struct's end increments the recorded cache-line index to 1 and the
summary prints `cline + 1 = 2`.  (The `last cacheline: 0 bytes` half of
the claim does hold.) -/
theorem c3_counterexample :
    structprobe defaultCfg c3_struct =
      .ok [Event.header "s".toList,
        Event.memberLine "long".toList "m;".toList 0 32,
        Event.memberLine "long".toList "m;".toList 32 32,
        Event.boundaryExact 1 64,
        Event.summary 64 2 2 64 0 0 0, Event.closing] ∧
    (2 : Nat) ≠ 1 :=
  ⟨rfl, by decide⟩

/-- Claim C3 as amended: for every non-overlapping member list exactly
filling 64 bytes, the emitted summary reports `cachelines: 2` (the
recorded index after the crossing at the struct's end, plus one) and
`last cacheline: 0 bytes`. -/
theorem c3_cachelines (ps : List (Nat × Nat)) (hne : ps ≠ [])
    (hc : noOverlapFrom 0 ps = true)
    (hb : ∀ p ∈ ps, p.1 + p.2 ≤ 64)
    (hend : lastEnd 0 ps = 64) :
    ∃ st evs,
      walkMembers defaultCfg initState (ps.map fun p => mkMember p.1 p.2) =
        .ok (st, evs) ∧
      structprobe defaultCfg (mkStructPairs 64 ps) =
        .ok (Event.header "s".toList :: evs ++
          [Event.summary 64 2 st.members st.memsz st.nholes st.holesz 0,
           Event.closing]) := by
  have hb1 : ∀ p ∈ ps, p.1 < 2 ^ 64 := fun p hp => by have := hb p hp; omega
  have hw := walkMembers_pairWalk defaultCfg ps initState hb1
  have hcc := pairWalk_cline ps initState hc hb (by simp [initState])
    (by simp [initState])
  obtain ⟨hc1, hc2, _⟩ := hcc
  have h0 : lastEnd initState.lastoff ps = 64 := by
    simpa [initState] using hend
  rw [h0] at hc1 hc2
  have hcline : (pairWalk defaultCfg initState ps).1.cline = 1 := by
    rw [hc1]
  have hsp := structprobe_pairs defaultCfg 64 ps hne hb1
  refine ⟨(pairWalk defaultCfg initState ps).1, (pairWalk defaultCfg initState ps).2,
    by rw [hw], ?_⟩
  rw [hsp, hcline, hc2]
  norm_num [W64, U32]
  rfl

/-- Witness for C3 (amended) on two 32-byte members. -/
theorem c3_cachelines_witness :
    ∃ st evs,
      walkMembers defaultCfg initState
        ([(0, 32), (32, 32)].map fun p => mkMember p.1 p.2) = .ok (st, evs) ∧
      structprobe defaultCfg (mkStructPairs 64 [(0, 32), (32, 32)]) =
        .ok (Event.header "s".toList :: evs ++
          [Event.summary 64 2 st.members st.memsz st.nholes st.holesz 0,
           Event.closing]) :=
  c3_cachelines [(0, 32), (32, 32)] (by decide) (by decide) (by decide) (by decide)

/-- Counterexample to claim C6: with a member ending at byte 320 (cache
line 5) followed by a member of size `2 ^ 38`, the crossing index
`5 + 2 ^ 32` is truncated to the 32-bit `cline` variable, so the walk
emits the annotation for cache-line index 5 **twice** — the recorded
indices are not strictly increasing and an index is re-emitted. -/
theorem c6_counterexample :
    walkMembers defaultCfg initState [memAt [0] 320, memAt [192, 2] (2 ^ 38)] =
      .ok (⟨320 + 2 ^ 38, 5, 2, 0, 320 + 2 ^ 38, 0⟩,
        [Event.memberLine "long".toList "m;".toList 0 320,
         Event.boundaryExact 5 320,
         Event.memberLine "long".toList "m;".toList 320 (2 ^ 38),
         Event.boundaryExact 5 320]) ∧
    boundaryClines
      [Event.memberLine "long".toList "m;".toList 0 320,
       Event.boundaryExact 5 320,
       Event.memberLine "long".toList "m;".toList 320 (2 ^ 38),
       Event.boundaryExact 5 320] = [5, 5] ∧
    ¬ List.Pairwise (· < ·) ([5, 5] : List Nat) :=
  ⟨rfl, rfl, by decide⟩

/-- Claim C6 as amended: as long as no member's end reaches `2 ^ 38`
bytes (so the 64-bit crossing index never exceeds the 32-bit `cline`
variable), every walk emits cache-line-boundary annotations with
strictly increasing recorded indices — at most once per index — and the
non-zero-overshoot message (`boundaryAgo`) is only ever used with a
non-zero overshoot, the exact-landing case using the distinct
`boundaryExact` message. -/
theorem c6_boundary_monotone (ps : List (Nat × Nat))
    (hb : ∀ p ∈ ps, p.1 + p.2 < 2 ^ 38) :
    ∃ st evs,
      walkMembers defaultCfg initState (ps.map fun p => mkMember p.1 p.2) =
        .ok (st, evs) ∧
      List.Pairwise (· < ·) (boundaryClines evs) ∧
      ∀ c pos a, Event.boundaryAgo c pos a ∈ evs → a ≠ 0 := by
  have hb1 : ∀ p ∈ ps, p.1 < 2 ^ 64 := fun p hp => by have := hb p hp; omega
  have hw := walkMembers_pairWalk defaultCfg ps initState hb1
  obtain ⟨h1, _, _, h4⟩ := pairWalk_boundary ps initState hb
  exact ⟨(pairWalk defaultCfg initState ps).1, (pairWalk defaultCfg initState ps).2,
    by rw [hw], h1, h4⟩

/-- Witness for C6 (amended) on two members crossing lines 1 and 3. -/
theorem c6_boundary_monotone_witness :
    ∃ st evs,
      walkMembers defaultCfg initState
        ([(0, 100), (100, 100)].map fun p => mkMember p.1 p.2) = .ok (st, evs) ∧
      List.Pairwise (· < ·) (boundaryClines evs) ∧
      ∀ c pos a, Event.boundaryAgo c pos a ∈ evs → a ≠ 0 :=
  c6_boundary_monotone [(0, 100), (100, 100)] (by decide)

/-- Counterexample to claim C4: querying `foo` in a world whose debug
info only contains `bar` terminates with **no** struct declaration
output — but with the success status `EX_OK` (0), which is not in any
of the usage-error/data-error/software-error classes, contradicting the
claim that the not-found case terminates fatally with a distinct
failure status. -/
theorem c4_counterexample :
    runMain c4_world "foo".toList = ⟨EX_OK, 1, []⟩ ∧
    ¬(EX_OK = EX_USAGE ∨ EX_OK = EX_DATAERR ∨ EX_OK = EX_SOFTWARE) :=
  ⟨rfl, by decide⟩

/-- Claim C4 as amended: when the session opens, the ELF class is
valid, teardown succeeds and no aggregate matches the queried name, the
run produces no struct declaration output and exits with the success
status `EX_OK` — indistinguishable from success, not a distinct failure
status. -/
theorem c4_not_found (w : World) (q : List Char)
    (hs : sessionOpened w = true)
    (hcls : w.elfClass = ELFCLASS32 ∨ w.elfClass = ELFCLASS64)
    (hend : w.endFails = false)
    (hnone : findMatchIn w.cus q = none) :
    (runMain w q).output = [] ∧ (runMain w q).exitCode = EX_OK ∧
      (runMain w q).exitCode ≠ EX_USAGE ∧ (runMain w q).exitCode ≠ EX_DATAERR ∧
      (runMain w q).exitCode ≠ EX_SOFTWARE := by
  obtain ⟨ho, hb⟩ : w.openOk = true ∧ w.beginErr = none := by
    unfold sessionOpened at hs
    simpa [Bool.and_eq_true, Option.isNone_iff_eq_none] using hs
  unfold runMain runMainBody
  rcases hcls with h | h <;>
    simp [h, ho, hb, hnone, hend, ELFCLASS32, ELFCLASS64, EX_OK, EX_USAGE,
      EX_DATAERR, EX_SOFTWARE]

/-- Witness for C4 (amended) at `c4_world` queried for `foo`. -/
theorem c4_not_found_witness :
    (runMain c4_world "foo".toList).output = [] ∧
    (runMain c4_world "foo".toList).exitCode = EX_OK ∧
    (runMain c4_world "foo".toList).exitCode ≠ EX_USAGE ∧
    (runMain c4_world "foo".toList).exitCode ≠ EX_DATAERR ∧
    (runMain c4_world "foo".toList).exitCode ≠ EX_SOFTWARE :=
  c4_not_found c4_world "foo".toList rfl (Or.inr rfl) rfl rfl

theorem runMainBody_ends (w : World) (q : List Char) (psz : Nat) :
    (runMainBody w q psz).dwarfEnds ≤ 1 ∧
    ((runMainBody w q psz).dwarfEnds = 1 ↔
      (runMainBody w q psz).exitCode = EX_OK ∨
        (runMainBody w q psz).exitCode = EX_SOFTWARE) := by
  unfold runMainBody
  split
  · split_ifs <;> simp [EX_OK, EX_SOFTWARE]
  · split
    · rename_i f hp
      rcases structprobe_error_cases _ _ _ hp with h | h | h | h <;>
        subst h <;>
        simp [Fatal.exitCode, EX_OK, EX_SOFTWARE, EX_DATAERR, ABORT_STATUS]
    · split_ifs <;> simp [EX_OK, EX_SOFTWARE]

/-- Counterexample to claim C8: `c8_world` successfully opens the
debug-info session, then takes the fatal bogus-ELF-class path
(`errx(EX_DATAERR, ...)`), which terminates the process **without**
calling `dwarf_end` — the session is not released on this exit path. -/
theorem c8_counterexample :
    sessionOpened c8_world = true ∧
    runMain c8_world "x".toList = ⟨EX_DATAERR, 0, []⟩ ∧
    (runMain c8_world "x".toList).dwarfEnds ≠ 1 :=
  ⟨rfl, rfl, by decide⟩

/-- Claim C8 as amended: `dwarf_end` is called at most once in any run;
after a successful open it is called exactly once precisely on the runs
that reach `out:` — those exiting with `EX_OK` or `EX_SOFTWARE` (the
success and not-found paths, including teardown failure).  Every other
fatal path after the open terminates without releasing the session. -/
theorem c8_session_release (w : World) (q : List Char) :
    (runMain w q).dwarfEnds ≤ 1 ∧
    (sessionOpened w = true →
      ((runMain w q).dwarfEnds = 1 ↔
        (runMain w q).exitCode = EX_OK ∨
          (runMain w q).exitCode = EX_SOFTWARE)) := by
  unfold runMain
  by_cases ho : w.openOk
  · cases hb : w.beginErr with
    | some e =>
      simp only [ho, Bool.not_true, Bool.false_eq_true, if_false]
      constructor
      · split_ifs <;> simp
      · intro hs
        simp [sessionOpened, ho, hb] at hs
    | none =>
      simp only [ho, Bool.not_true, Bool.false_eq_true, if_false]
      split_ifs with h1 h2
      · exact ⟨(runMainBody_ends w q 4).1, fun _ => (runMainBody_ends w q 4).2⟩
      · exact ⟨(runMainBody_ends w q 8).1, fun _ => (runMainBody_ends w q 8).2⟩
      · constructor
        · simp
        · intro _
          norm_num [EX_OK, EX_SOFTWARE, EX_DATAERR]
  · simp only [Bool.not_eq_true] at ho
    simp only [ho, Bool.not_false, if_true]
    constructor
    · simp
    · intro hs
      simp [sessionOpened, ho] at hs

/-- Witness for C8 (amended) at `c4_world` (session opened, not-found
path): the session is released exactly once and the exit status is
`EX_OK`. -/
theorem c8_session_release_witness :
    (runMain c4_world "foo".toList).dwarfEnds ≤ 1 ∧
    ((runMain c4_world "foo".toList).dwarfEnds = 1 ↔
      (runMain c4_world "foo".toList).exitCode = EX_OK ∨
        (runMain c4_world "foo".toList).exitCode = EX_SOFTWARE) :=
  ⟨(c8_session_release c4_world "foo".toList).1,
   (c8_session_release c4_world "foo".toList).2 rfl⟩

/-- Claim C9: whenever `main`'s lookup hands a DIE to the layout walk,
the guard has already ensured it has at least one child and a non-null
name equal to the queried type name, so `structprobe`'s
"aggregate with no children" fatal branch (`XXX ???` /
`exit(EX_DATAERR)`) can never be taken from the command-line tool. -/
theorem c9_probe_precondition (w : World) (q : List Char) (d : StructDie)
    (h : findMatchIn w.cus q = some d) :
    d.children ≠ [] ∧ d.name = some q ∧
      ∀ cfg, structprobe cfg d ≠ .error Fatal.noChildren := by
  have hm := findMatchIn_some w.cus q d h
  obtain ⟨h1, h2⟩ := matchesQuery_props q d hm
  exact ⟨h1, h2, fun cfg => structprobe_ne_noChildren cfg d h1⟩

/-- Witness for C9 at `c9_world`, whose query `foo` matches `c9_die`. -/
theorem c9_probe_precondition_witness :
    c9_die.children ≠ [] ∧ c9_die.name = some "foo".toList ∧
      ∀ cfg, structprobe cfg c9_die ≠ .error Fatal.noChildren :=
  c9_probe_precondition c9_world "foo".toList c9_die rfl

/-- Counterexample to claim C5: a member with pointer-indirection depth
30 renders with 30 stars — `min(30, 29) = 29` is wrong; the source caps
the suffix at `sizeof(ptr_suffix) - 2 = 30` stars, not 29. -/
theorem c5_counterexample :
    structprobe defaultCfg c5_struct =
      .ok [Event.header "s".toList,
        Event.memberLine ("char ".toList ++ List.replicate 30 '*')
          "p;".toList 0 8,
        Event.summary 8 1 1 8 0 0 8, Event.closing] ∧
    ("char ".toList ++ List.replicate 30 '*').count '*' = 30 ∧
    (30 : Nat) ≠ min 30 29 :=
  ⟨rfl, by decide, by decide⟩

/-- Claim C5 as amended: for every pointer chain of depth `n ≥ 1`
(ending in a base type whose name contains no star), the rendered type
name contains exactly `min(n, 30)` star characters — the cap is 30, the
size of the 32-byte suffix buffer minus the leading space and the NUL —
and the rendered suffix (space plus stars) never exceeds 31 bytes, so
it always fits the fixed-size buffer. -/
theorem c5_pointer_cap (n : Nat) (h : 1 ≤ n) :
    (formatType (ptrChain n)).1.count '*' = min n 30 ∧
    (ptr_suffix n).length ≤ 31 := by
  obtain ⟨m, rfl⟩ : ∃ m, n = m + 1 := ⟨n - 1, by omega⟩
  obtain ⟨h1, _⟩ := formatType_ptrChain m
  constructor
  · rw [h1, List.count_append, ptr_suffix_count]
    rw [show ("char".toList.count '*') = 0 from rfl]
    omega
  · exact ptr_suffix_length _

/-- Witness for C5 (amended) at depth 2: two stars. -/
theorem c5_pointer_cap_witness :
    (formatType (ptrChain 2)).1.count '*' = min 2 30 ∧
    (ptr_suffix 2).length ≤ 31 :=
  c5_pointer_cap 2 (by norm_num)
